import Mathlib

/-!
Verification of the DensMD density-visualiser core (run_densmd.py) against its
specification.  The embedding below translates the computational core of the
source: ROI bounds resolution, per-species ROI filtering and averaging,
histogram binning (numpy histogramdd over explicit bin edges), Miller-plane
masking and point filtering, the single-slot region-data cache, and the
transfer-function alpha computation of the histogram visualiser.  Float
arithmetic of the source is modelled exactly over the rationals; quantities the
source obtains from external libraries (the Gaussian blur, the colormap, the
power function x ** gamma) are parameters of the embedding, constrained only by
the facts the source relies on.
-/

/-- Cartesian 3-vector with rational components, modelling a float64 triple. -/
structure Vec3 where
  x : ℚ
  y : ℚ
  z : ℚ
  deriving DecidableEq, Repr

def Vec3.add (a b : Vec3) : Vec3 := ⟨a.x + b.x, a.y + b.y, a.z + b.z⟩

def Vec3.sub (a b : Vec3) : Vec3 := ⟨a.x - b.x, a.y - b.y, a.z - b.z⟩

def Vec3.smul (q : ℚ) (a : Vec3) : Vec3 := ⟨q * a.x, q * a.y, q * a.z⟩

def Vec3.dot (a b : Vec3) : ℚ := a.x * b.x + a.y * b.y + a.z * b.z

/-- Unit-cell matrix given by rows, as ASE provides it. -/
structure Mat3 where
  r0 : Vec3
  r1 : Vec3
  r2 : Vec3
  deriving DecidableEq, Repr

/-- Row-vector times matrix, matching np.dot(v, cell) for a 3x3 cell. -/
def rowMul (v : Vec3) (m : Mat3) : Vec3 :=
  Vec3.add (Vec3.smul v.x m.r0) (Vec3.add (Vec3.smul v.y m.r1) (Vec3.smul v.z m.r2))

def compMin (a b : Vec3) : Vec3 := ⟨min a.x b.x, min a.y b.y, min a.z b.z⟩

def compMax (a b : Vec3) : Vec3 := ⟨max a.x b.x, max a.y b.y, max a.z b.z⟩

/-- Componentwise minimum over a list of vectors (corners.min(axis=0)). -/
def listVecMin : List Vec3 → Vec3
  | [] => ⟨0, 0, 0⟩
  | v :: vs => vs.foldl compMin v

/-- Componentwise maximum over a list of vectors (corners.max(axis=0)). -/
def listVecMax : List Vec3 → Vec3
  | [] => ⟨0, 0, 0⟩
  | v :: vs => vs.foldl compMax v

/-- The 8 corners of a per-axis box, in the loop order of the source:
for i in (0,1) for j in (0,1) for k in (0,1), picking per axis the lower or
upper bound. -/
def cornerList (lo hi : Vec3) : List Vec3 :=
  [⟨lo.x, lo.y, lo.z⟩, ⟨lo.x, lo.y, hi.z⟩, ⟨lo.x, hi.y, lo.z⟩, ⟨lo.x, hi.y, hi.z⟩,
   ⟨hi.x, lo.y, lo.z⟩, ⟨hi.x, lo.y, hi.z⟩, ⟨hi.x, hi.y, lo.z⟩, ⟨hi.x, hi.y, hi.z⟩]

/-- ROI declaration: the dict with optional keys type and bounds; bounds are
three per-axis (min, max) pairs, stored as the triple of mins and the triple
of maxes. -/
structure RoiDecl where
  roiType : Option String
  bounds : Option (Vec3 × Vec3)

def roiBoundsMissingMsg : String := "ROI definition must include bounds"

def unknownRoiTypeMsg : String := "Unknown ROI type"

/-- Full-cell bounds: the 8 corners np.dot([i,j,k], cell) for i,j,k in (0,1),
then componentwise min/max. -/
def fullCellBounds (cell : Mat3) : Vec3 × Vec3 :=
  let corners := (cornerList ⟨0, 0, 0⟩ ⟨1, 1, 1⟩).map (fun v => rowMul v cell)
  (listVecMin corners, listVecMax corners)

/-- Model of _calculate_roi_bounds. -/
def calcRoiBounds (roiDef : Option RoiDecl) (cell : Mat3) : Except String (Vec3 × Vec3) :=
  match roiDef with
  | none => Except.ok (fullCellBounds cell)
  | some rd =>
    match rd.bounds with
    | none => Except.error roiBoundsMissingMsg
    | some (lo, hi) =>
      let t := rd.roiType.getD ("absolute")
      if t = "fractional" then
        let absCorners := (cornerList lo hi).map (fun v => rowMul v cell)
        Except.ok (listVecMin absCorners, listVecMax absCorners)
      else if t = "absolute" then
        Except.ok (lo, hi)
      else Except.error unknownRoiTypeMsg

/-- Resolution of a fractional ROI declaration as the spec words it: transform
the 8 corner combinations of the fractional box through the cell matrix, then
take the componentwise min and max.  Stated separately from calcRoiBounds so
that the round-trip claim relates the two declaration forms through it. -/
def resolvedFracBounds (cell : Mat3) (lo hi : Vec3) : Vec3 × Vec3 :=
  let absCorners := (cornerList lo hi).map (fun v => rowMul v cell)
  (listVecMin absCorners, listVecMax absCorners)

/-! Miller-plane geometry. -/

abbrev VoxIdx := ℕ × ℕ × ℕ

/-- The six ROI grid indices read from the sliders. -/
structure RoiIndices where
  xmin : ℕ
  xmax : ℕ
  ymin : ℕ
  ymax : ℕ
  zmin : ℕ
  zmax : ℕ
  deriving DecidableEq, Repr

/-- Global grid metadata (_get_grid_parameters). -/
structure GridParams where
  origin : Vec3
  spacing : Vec3
  cell_center : Vec3
  deriving DecidableEq, Repr

/-- Miller slicing parameters (_get_miller_parameters output dict). -/
structure MillerParams where
  use_miller : Bool
  h : ℤ
  k : ℤ
  l : ℤ
  thickness : ℚ
  offset : ℚ
  n : Option Vec3
  deriving DecidableEq, Repr

/-- Physical origin of the ROI sub-grid: origin + (xmin, ymin, zmin) * spacing. -/
def roiOrigin (roi : RoiIndices) (gp : GridParams) : Vec3 :=
  ⟨gp.origin.x + (roi.xmin : ℚ) * gp.spacing.x,
   gp.origin.y + (roi.ymin : ℚ) * gp.spacing.y,
   gp.origin.z + (roi.zmin : ℚ) * gp.spacing.z⟩

/-- Voxel centre of the ROI sub-grid cell t: roi_origin + (index + 0.5) * spacing. -/
def roiVoxelCenter (roi : RoiIndices) (gp : GridParams) (t : VoxIdx) : Vec3 :=
  ⟨(roiOrigin roi gp).x + ((t.1 : ℚ) + 1/2) * gp.spacing.x,
   (roiOrigin roi gp).y + ((t.2.1 : ℚ) + 1/2) * gp.spacing.y,
   (roiOrigin roi gp).z + ((t.2.2 : ℚ) + 1/2) * gp.spacing.z⟩

/-- Mask entry of compute_roi_miller_mask at voxel t: the absolute signed
distance np.sum((centre - cell_center) * n) - offset is strictly below
thickness / 2. -/
def roiMillerMaskAt (roi : RoiIndices) (gp : GridParams) (n : Vec3)
    (thickness offset : ℚ) (t : VoxIdx) : Bool :=
  let c := roiVoxelCenter roi gp t
  let d := (c.x - gp.cell_center.x) * n.x + (c.y - gp.cell_center.y) * n.y +
           (c.z - gp.cell_center.z) * n.z
  decide (|d - offset| < thickness / 2)

/-- Model of filter_points_by_miller: keeps the points whose absolute signed
distance np.dot(p - cell_center, n) - offset is strictly below thickness / 2;
with slicing off or an undefined normal the input list is returned unchanged. -/
def filterPointsByMiller (points : List Vec3) (cell_center : Vec3)
    (mp : MillerParams) : List Vec3 :=
  match mp.use_miller, mp.n with
  | true, some nv =>
    points.filter (fun p =>
      decide (|((p.x - cell_center.x) * nv.x + (p.y - cell_center.y) * nv.y +
                (p.z - cell_center.z) * nv.z) - mp.offset| < mp.thickness / 2))
  | _, _ => points

/-- Slab membership exactly as the spec states it: |(p - c) · n - d| < t/2. -/
def millerInsideSpec (p c n : Vec3) (d t : ℚ) : Prop :=
  |Vec3.dot (Vec3.sub p c) n - d| < t / 2

instance (p c n : Vec3) (d t : ℚ) : Decidable (millerInsideSpec p c n d t) := by
  unfold millerInsideSpec
  infer_instance

def normSq (mh mk ml : ℤ) : ℚ := ((mh ^ 2 + mk ^ 2 + ml ^ 2 : ℤ) : ℚ)

/-- Model of _get_miller_parameters.  The source computes
norm = sqrt(h^2 + k^2 + l^2) and sets n to (h,k,l)/norm when norm > 0 and to
None otherwise; sqrt is positive exactly on positive arguments, so the guard is
embedded as h^2 + k^2 + l^2 > 0, and the normalisation (the only use of sqrt
and of division by norm) is a parameter applied strictly under that guard, so
a division by a zero norm is never evaluated. -/
def getMillerParameters (normalize : ℤ → ℤ → ℤ → Vec3) (use : Bool)
    (mh mk ml : ℤ) (thickness offset : ℚ) : MillerParams :=
  { use_miller := use, h := mh, k := mk, l := ml,
    thickness := thickness, offset := offset,
    n := if use then
           (if 0 < normSq mh mk ml then some (normalize mh mk ml) else none)
         else none }

/-! Region data and its single-slot cache. -/

def voxelTriples (d1 d2 d3 : ℕ) : List VoxIdx :=
  (List.range d1).flatMap (fun i =>
    (List.range d2).flatMap (fun j =>
      (List.range d3).map (fun m => (i, j, m))))

/-- ROI sub-grid dimensions: max - min + 1 per axis. -/
def roiDims (roi : RoiIndices) : ℕ × ℕ × ℕ :=
  (roi.xmax - roi.xmin + 1, roi.ymax - roi.ymin + 1, roi.zmax - roi.zmin + 1)

/-- Indices kept by a [::5] stride. -/
def strided5 (d : ℕ) : List ℕ := (List.range d).filter (fun i => i % 5 == 0)

def stridedTriples (d1 d2 d3 : ℕ) : List VoxIdx :=
  (strided5 d1).flatMap (fun i =>
    (strided5 d2).flatMap (fun j =>
      (strided5 d3).map (fun m => (i, j, m))))

def vecCentroid (l : List Vec3) : Vec3 :=
  Vec3.smul (1 / (l.length : ℚ)) (l.foldl Vec3.add ⟨0, 0, 0⟩)

/-- The region_data dict assembled by _precompute_region_data. -/
structure RegionData where
  roi_indices : RoiIndices
  phys_bounds : Vec3 × Vec3
  roi_voxel_centers : Option (VoxIdx → Vec3)
  miller_mask : Option (VoxIdx → Bool)
  focal_point : Vec3
  grid_params : GridParams
  miller_params : MillerParams

/-- Model of _compute_physical_bounds: phys = origin + index * spacing. -/
def computePhysicalBounds (roi : RoiIndices) (gp : GridParams) : Vec3 × Vec3 :=
  (⟨gp.origin.x + (roi.xmin : ℚ) * gp.spacing.x,
    gp.origin.y + (roi.ymin : ℚ) * gp.spacing.y,
    gp.origin.z + (roi.zmin : ℚ) * gp.spacing.z⟩,
   ⟨gp.origin.x + (roi.xmax : ℚ) * gp.spacing.x,
    gp.origin.y + (roi.ymax : ℚ) * gp.spacing.y,
    gp.origin.z + (roi.zmax : ℚ) * gp.spacing.z⟩)

/-- The cache-miss computation of _precompute_region_data: physical bounds,
voxel centres and Miller mask (only when slicing is active with a defined
normal), and the focal point from a [::5]-strided sample of masked voxel
centres with fallback to the midpoint of the physical bounds. -/
def computeRegionData (roi : RoiIndices) (gp : GridParams) (mp : MillerParams) :
    RegionData :=
  let pb := computePhysicalBounds roi gp
  let centers : Option (VoxIdx → Vec3) :=
    match mp.use_miller, mp.n with
    | true, some _ => some (fun t => roiVoxelCenter roi gp t)
    | _, _ => none
  let mask : Option (VoxIdx → Bool) :=
    match mp.use_miller, mp.n with
    | true, some nv => some (roiMillerMaskAt roi gp nv mp.thickness mp.offset)
    | _, _ => none
  let d := roiDims roi
  let mid := Vec3.smul (1/2) (Vec3.add pb.1 pb.2)
  let fp :=
    match mask with
    | some m =>
      if (voxelTriples d.1 d.2.1 d.2.2).any (fun t => m t) then
        let samples := (stridedTriples d.1 d.2.1 d.2.2).filterMap
          (fun t => if m t then some (roiVoxelCenter roi gp t) else none)
        if samples.isEmpty then mid else vecCentroid samples
      else mid
    | none => mid
  { roi_indices := roi, phys_bounds := pb, roi_voxel_centers := centers,
    miller_mask := mask, focal_point := fp, grid_params := gp,
    miller_params := mp }

/-- The tuple hashed into miller_hash: (use_miller, h, k, l, thickness, offset). -/
def millerKey (mp : MillerParams) : Bool × ℤ × ℤ × ℤ × ℚ × ℚ :=
  (mp.use_miller, mp.h, mp.k, mp.l, mp.thickness, mp.offset)

/-- The three cache attributes of the visualiser object. -/
structure CacheState where
  region_data_cache : Option RegionData
  last_roi_hash : Option RoiIndices
  last_miller_hash : Option (Bool × ℤ × ℤ × ℤ × ℚ × ℚ)

def initState : CacheState := ⟨none, none, none⟩

/-- Model of _precompute_region_data.  The Python hash values are functions of
the key tuples, and equal inputs give equal hashes, so the key tuples stand in
for their hashes here. -/
def precomputeRegionData (st : CacheState) (roi : RoiIndices) (gp : GridParams)
    (mp : MillerParams) : RegionData × CacheState :=
  match st.region_data_cache with
  | some rd =>
    if st.last_roi_hash = some roi ∧ st.last_miller_hash = some (millerKey mp) then
      (rd, st)
    else
      let rd2 := computeRegionData roi gp mp
      (rd2, ⟨some rd2, some roi, some (millerKey mp)⟩)
  | none =>
    let rd2 := computeRegionData roi gp mp
    (rd2, ⟨some rd2, some roi, some (millerKey mp)⟩)

/-! Histogram binning over the initial ROI grid. -/

/-- The epsilon 1e-9 used by the source for clipping and for the scaled-alpha
denominator. -/
def epsClip : ℚ := 1 / 1000000000

/-- The fallback 1e-6 used by the source for degenerate ROI dimensions and
zero spacing. -/
def eps6 : ℚ := 1 / 1000000

/-- np.clip for one scalar: min(max(v, lo), hi). -/
def clipQ (lo hi v : ℚ) : ℚ := min (max v lo) hi

/-- np.clip(positions, global_min, global_max - 1e-9), one position. -/
def clipToRoi (gmin gmax : Vec3) (p : Vec3) : Vec3 :=
  ⟨clipQ gmin.x (gmax.x - epsClip) p.x,
   clipQ gmin.y (gmax.y - epsClip) p.y,
   clipQ gmin.z (gmax.z - epsClip) p.z⟩

/-- Bin edge i on one axis: global_min + i * spacing for i < N, with the final
edge snapped exactly to global_max. -/
def edgeAt (mn mx spacing : ℚ) (N i : ℕ) : ℚ :=
  if i = N then mx else mn + (i : ℚ) * spacing

/-- One-axis bin index, following np.histogramdd: the right-sided search
position is the count of edges that are at most v; a value sitting exactly on
the final edge is moved into the last bin; positions outside the edge range
are dropped (none). -/
def binIndex1D (mn mx spacing : ℚ) (N : ℕ) (v : ℚ) : Option ℕ :=
  let c := (List.range (N + 1)).countP (fun i => decide (edgeAt mn mx spacing N i ≤ v))
  let c2 := if v = mx then c - 1 else c
  if 1 ≤ c2 ∧ c2 ≤ N then some (c2 - 1) else none

/-- Three-axis bin index; a position is counted only if every axis bins it. -/
def binIndex3 (gmin gmax spacing : Vec3) (N : ℕ) (p : Vec3) : Option VoxIdx :=
  match binIndex1D gmin.x gmax.x spacing.x N p.x,
        binIndex1D gmin.y gmax.y spacing.y N p.y,
        binIndex1D gmin.z gmax.z spacing.z N p.z with
  | some a, some b, some c => some (a, b, c)
  | _, _, _ => none

/-- Raw histogram count in voxel t: the number of positions that, after the
clip into [global_min, global_max - 1e-9], bin to t. -/
def histCounts (ps : List Vec3) (gmin gmax spacing : Vec3) (N : ℕ) (t : VoxIdx) : ℕ :=
  ps.countP (fun p => decide (binIndex3 gmin gmax spacing N (clipToRoi gmin gmax p) = some t))

/-- All voxels of the N x N x N grid, as a Finset. -/
def voxFinset (N : ℕ) : Finset VoxIdx :=
  Finset.range N ×ˢ (Finset.range N ×ˢ Finset.range N)

/-! Per-species statistics (_process_frames). -/

/-- The initial-ROI membership test of _process_frames: componentwise
roi_min <= p and p <= roi_max. -/
def inRoi (gmin gmax : Vec3) (p : Vec3) : Bool :=
  decide (gmin.x ≤ p.x ∧ p.x ≤ gmax.x ∧ gmin.y ≤ p.y ∧ p.y ≤ gmax.y ∧
          gmin.z ≤ p.z ∧ p.z ≤ gmax.z)

structure SpeciesStats where
  global_positions : List Vec3
  individual_averages : List Vec3

/-- positions_array[:, indices, :]: per frame, the rows of the species. -/
def speciesTrajectory (posArr : List (List Vec3)) (idxs : List ℕ) : List (List Vec3) :=
  posArr.map (fun frame => idxs.map (fun i => frame.getD i ⟨0, 0, 0⟩))

/-- Per-atom mean over the frame axis of a per-species trajectory. -/
def meanOverFrames (fs : List (List Vec3)) (na : ℕ) : List Vec3 :=
  (List.range na).map (fun a =>
    Vec3.smul (1 / (fs.length : ℚ))
      (fs.foldl (fun acc fr => Vec3.add acc (fr.getD a ⟨0, 0, 0⟩)) ⟨0, 0, 0⟩))

/-- Model of _process_frames for one species.  The averaged positions use the
frame sub-range [aStart, aStop); when that slice is empty, np.mean emits NaN
rows which then fail every ROI comparison, so the filtered averaged list is
empty — modelled directly as the empty list. -/
def processFramesSpecies (posArr : List (List Vec3)) (idxs : List ℕ)
    (aStart aStop : ℕ) (gmin gmax : Vec3) : SpeciesStats :=
  let traj := speciesTrajectory posArr idxs
  let globalPos := (traj.flatten).filter (inRoi gmin gmax)
  let sliced := (traj.take aStop).drop aStart
  let avgs :=
    if sliced.isEmpty then []
    else (meanOverFrames sliced idxs.length).filter (inRoi gmin gmax)
  { global_positions := globalPos, individual_averages := avgs }

/-! The load-time grid and per-species histogram data. -/

/-- ROI dimensions with the degenerate-dimension guard: when any axis extent
is at most 1e-9 every axis is clamped below by 1e-6 (np.maximum). -/
def loadDims (gmin gmax : Vec3) : Vec3 :=
  let d := Vec3.sub gmax gmin
  if d.x ≤ epsClip ∨ d.y ≤ epsClip ∨ d.z ≤ epsClip then
    ⟨max d.x eps6, max d.y eps6, max d.z eps6⟩
  else d

/-- Grid spacing: clamped dimensions divided by N - 1, then any exactly-zero
component replaced by 1e-6 (np.where). -/
def loadSpacing (gmin gmax : Vec3) (N : ℕ) : Vec3 :=
  let d := loadDims gmin gmax
  let s : Vec3 := ⟨d.x / ((N : ℚ) - 1), d.y / ((N : ℚ) - 1), d.z / ((N : ℚ) - 1)⟩
  ⟨if s.x = 0 then eps6 else s.x,
   if s.y = 0 then eps6 else s.y,
   if s.z = 0 then eps6 else s.z⟩

/-- Polymorphic list maximum with a default for the empty list. -/
def listMaxD {α : Type} [LinearOrder α] (d : α) : List α → α
  | [] => d
  | a :: l => l.foldl max a

/-- Polymorphic list minimum with a default for the empty list. -/
def listMinD {α : Type} [LinearOrder α] (d : α) : List α → α
  | [] => d
  | a :: l => l.foldl min a

def insertSorted (a : ℕ) : List ℕ → List ℕ
  | [] => [a]
  | b :: l => if a ≤ b then a :: b :: l else b :: insertSorted a l

/-- Ascending insertion sort, modelling np.sort of the raveled counts. -/
def sortNat : List ℕ → List ℕ
  | [] => []
  | a :: l => insertSorted a (sortNat l)

/-- The histogram_data dict of one species.  The normal branch stores the
counts under the key raw_data; the empty-species branch stores a zero array
under the key data instead (and no raw_data entry) — both keys are kept as
separate optional fields so the key layout of the source is preserved. -/
structure HistogramData where
  dataKey : Option (VoxIdx → ℕ)
  raw_data : Option (VoxIdx → ℕ)
  sorted_data : List ℕ
  origin : Vec3
  spacing : Vec3
  global_min : ℕ
  global_max : ℕ

def voxelList (N : ℕ) : List VoxIdx := voxelTriples N N N

/-- histogram_data for a species with at least one ROI-filtered position. -/
def fullHistogramData (ps : List Vec3) (gmin gmax spacing : Vec3) (N : ℕ) :
    HistogramData :=
  let cnt := histCounts ps gmin gmax spacing N
  let vals := (voxelList N).map cnt
  { dataKey := none, raw_data := some cnt, sorted_data := sortNat vals,
    origin := gmin, spacing := spacing,
    global_min := listMinD 0 vals, global_max := listMaxD 0 vals }

/-- histogram_data stored by the empty-species branch: a zero field under the
key data, sorted_data [0.0], and zero global min/max. -/
def emptyHistogramData (gmin spacing : Vec3) : HistogramData :=
  { dataKey := some (fun _ => 0), raw_data := none, sorted_data := [0],
    origin := gmin, spacing := spacing, global_min := 0, global_max := 0 }

def warnNoPositions (atype : String) : String :=
  "Warning: No positions found for species " ++ atype ++ " within the initial ROI."

/-- One iteration of the per-species histogram loop of load_and_precompute,
together with the warning it prints. -/
def speciesHistogramStep (atype : String) (ps : List Vec3)
    (gmin gmax spacing : Vec3) (N : ℕ) : HistogramData × List String :=
  if ps.isEmpty then (emptyHistogramData gmin spacing, [warnNoPositions atype])
  else (fullHistogramData ps gmin gmax spacing N, [])

/-! Model of load_and_precompute.  File reading, the frame-slice parsing and
the ASE objects are external; the frames arrive as data.  The GRID_RESOLUTION
constant (200 in the source) is the parameter N. -/

structure Frame where
  symbols : List String
  positions : List Vec3
  cell : Mat3

structure SpeciesData where
  stats : SpeciesStats
  histogram_data : HistogramData

structure LoadResult where
  warnings : List String
  roi_min : Vec3
  roi_max : Vec3
  spacing : Vec3
  cell_center : Vec3
  species : List (String × SpeciesData)

def noFramesMsg : String := "No frames loaded. Check file path and slice."

def dimWarnMsg : String := "Warning: Initial ROI dimension is zero or negative."

/-- ATOM_TYPE_MAP.get(sym, sym): a lookup with identity fallback. -/
def mapSymbol (tm : List (String × String)) (s : String) : String :=
  match tm.find? (fun q => q.1 == s) with
  | some q => q.2
  | none => s

def sortStr (l : List String) : List String :=
  l.mergeSort (fun a b => decide (a < b) || a == b)

/-- Model of load_and_precompute: empty-frame check, ROI bounds resolution,
species indexing from the first frame (through the rename map, then
sorted(set(..))), per-species ROI statistics, grid definition over the initial
ROI bounds, and the per-species histogram loop. -/
def loadAndPrecompute (frames : List Frame) (roiDef : Option RoiDecl)
    (typeMap : List (String × String)) (N : ℕ) (aStart aStop : ℕ) :
    Except String LoadResult :=
  match frames with
  | [] => Except.error noFramesMsg
  | f1 :: _ =>
    match calcRoiBounds roiDef f1.cell with
    | Except.error e => Except.error e
    | Except.ok (gmin, gmax) =>
      let syms := f1.symbols.map (mapSymbol typeMap)
      let uniqueTypes := sortStr (syms.eraseDups)
      let posArr := frames.map (fun f => f.positions)
      let d0 := Vec3.sub gmax gmin
      let degWarn : List String :=
        if d0.x ≤ epsClip ∨ d0.y ≤ epsClip ∨ d0.z ≤ epsClip then [dimWarnMsg] else []
      let dims := loadDims gmin gmax
      let spacing := loadSpacing gmin gmax N
      let center := Vec3.add gmin (Vec3.smul (1/2) dims)
      let specList := uniqueTypes.map (fun atype =>
        let idxs := (List.range syms.length).filter (fun i => syms.getD i ("") == atype)
        let stats := processFramesSpecies posArr idxs aStart aStop gmin gmax
        let step := speciesHistogramStep atype stats.global_positions gmin gmax spacing N
        (atype, SpeciesData.mk stats step.1, step.2))
      Except.ok
        { warnings := degWarn ++ (specList.map (fun q => q.2.2)).flatten,
          roi_min := gmin, roi_max := gmax, spacing := spacing,
          cell_center := center,
          species := specList.map (fun q => (q.1, q.2.1)) }

/-! The histogram visualisation pass (_visualise_histogram).  The Gaussian
blur (scipy), the colormap (matplotlib) and the float power x ** gamma (numpy)
are parameters; colours are not modelled, only the alpha channel the claims
are about.  The smoothed-field memo cache is elided: it returns the previously
stored value of the same pure computation, so it is semantically transparent. -/

/-- np.isclose with its default tolerances rtol=1e-5, atol=1e-8. -/
def isCloseQ (a b : ℚ) : Bool :=
  decide (|a - b| ≤ 1 / 100000000 + (1 / 100000) * |b|)

/-- .astype(np.uint8) on a nonnegative float: truncation, then the low byte. -/
def astypeUint8 (q : ℚ) : ℕ := (Int.toNat ⌊q⌋) % 256

/-- The alpha byte of one sample v of the normalized sub-array: the visible
band test (strict lower edge when gamma = 0), the scaled value
(v - lower) / (upper - lower + 1e-9) clipped to [0,1], the gamma power, the
opacity scale, the uint8 cast, and the zeroing outside the band. -/
def alphaByte (pw : ℚ → ℚ → ℚ) (lower upper maxAlpha gamma v : ℚ) : ℕ :=
  let inRange : Bool :=
    if gamma = 0 then decide (lower < v ∧ v ≤ upper)
    else decide (lower ≤ v ∧ v ≤ upper)
  let scaled := clipQ 0 1 ((v - lower) / (upper - lower + epsClip))
  let corrected := pw scaled gamma
  let a := astypeUint8 (corrected * maxAlpha * 255)
  if inRange then a else 0

/-- processed_data: the Gaussian blur when sigma > 0, otherwise the raw counts. -/
def processedOf (smooth : (VoxIdx → ℚ) → (VoxIdx → ℚ)) (raw : VoxIdx → ℕ)
    (sigma : ℕ) : VoxIdx → ℚ :=
  if 0 < sigma then smooth (fun t => ((raw t : ℕ) : ℚ))
  else fun t => ((raw t : ℕ) : ℚ)

/-- sub_data: the ROI-sliced view of the processed field, indexed from the
ROI minimum corner. -/
def subDataAt (processed : VoxIdx → ℚ) (roi : RoiIndices) (t : VoxIdx) : ℚ :=
  processed (roi.xmin + t.1, roi.ymin + t.2.1, roi.zmin + t.2.2)

/-- np.where(miller_mask, sub_data, 0): the Miller-masked sub-array. -/
def maskedSubAt (mask : Option (VoxIdx → Bool)) (sub : VoxIdx → ℚ) (t : VoxIdx) : ℚ :=
  match mask with
  | some m => if m t then sub t else 0
  | none => sub t

/-- visible_data: sub_data[miller_mask], or the whole raveled sub-array when
no mask is active. -/
def visibleVals (sub : VoxIdx → ℚ) (mask : Option (VoxIdx → Bool))
    (d1 d2 d3 : ℕ) : List ℚ :=
  match mask with
  | some m => (voxelTriples d1 d2 d3).filterMap
      (fun t => if m t then some (sub t) else none)
  | none => (voxelTriples d1 d2 d3).map sub

/-- The visualiser output as far as the claims observe it: whether a volume
was rendered, and its per-voxel alpha byte. -/
structure VisOutput where
  rendered : Bool
  alpha : VoxIdx → ℕ

def keyErrorMsg : String := "KeyError: raw_data"

/-- One sample of the normalized sub-array: zero everywhere when the visible
range is degenerate (np.isclose), otherwise the Miller-masked value shifted
and scaled by the visible min/max; in both cases clipped to [0,1]. -/
def visNormalizedAt (sub : VoxIdx → ℚ) (mask : Option (VoxIdx → Bool))
    (dmin dmax : ℚ) (t : VoxIdx) : ℚ :=
  clipQ 0 1 (if isCloseQ dmax dmin then 0
             else (maskedSubAt mask sub t - dmin) / (dmax - dmin))

/-- Body of _visualise_histogram: reads the key raw_data (KeyError when the
entry is absent, as it is for an empty species), smooths, slices to the ROI,
applies the Miller mask, normalizes against the visible min/max with the
np.isclose degenerate-range guard and the clip to [0,1], and computes the
alpha channel; an empty visible selection returns early with nothing
rendered. -/
def visualiseHistogramCore (pw : ℚ → ℚ → ℚ)
    (smooth : (VoxIdx → ℚ) → (VoxIdx → ℚ)) (hd : HistogramData) (sigma : ℕ)
    (roi : RoiIndices) (mask : Option (VoxIdx → Bool))
    (lower upper maxAlpha gamma : ℚ) : Except String VisOutput :=
  match hd.raw_data with
  | none => Except.error keyErrorMsg
  | some raw =>
    let sub := subDataAt (processedOf smooth raw sigma) roi
    let d := roiDims roi
    let vis := visibleVals sub mask d.1 d.2.1 d.2.2
    if vis.isEmpty then Except.ok { rendered := false, alpha := fun _ => 0 }
    else
      Except.ok { rendered := true,
                  alpha := fun t => alphaByte pw lower upper maxAlpha gamma
                    (visNormalizedAt sub mask (listMinD 0 vis) (listMaxD 0 vis) t) }

/-- _visualise_histogram as seen by update_visualisation: the whole body runs
inside try/except, so an exception is logged and nothing is rendered. -/
def visualiseHistogram (pw : ℚ → ℚ → ℚ)
    (smooth : (VoxIdx → ℚ) → (VoxIdx → ℚ)) (hd : HistogramData) (sigma : ℕ)
    (roi : RoiIndices) (mask : Option (VoxIdx → Bool))
    (lower upper maxAlpha gamma : ℚ) : VisOutput :=
  match visualiseHistogramCore pw smooth hd sigma roi mask lower upper maxAlpha gamma with
  | Except.error _ => { rendered := false, alpha := fun _ => 0 }
  | Except.ok v => v

/-! Helper lemmas. -/

theorem le_foldl_max {α : Type} [LinearOrder α] (l : List α) (a : α) :
    a ≤ l.foldl max a ∧ ∀ x ∈ l, x ≤ l.foldl max a := by
  induction l generalizing a with
  | nil => simp
  | cons b t ih =>
    obtain ⟨h1, h2⟩ := ih (max a b)
    refine ⟨le_trans (le_max_left a b) h1, ?_⟩
    intro x hx
    rcases List.mem_cons.mp hx with h | h
    · exact le_trans (le_of_eq h) (le_trans (le_max_right a b) h1)
    · exact h2 x h

theorem foldl_min_le {α : Type} [LinearOrder α] (l : List α) (a : α) :
    l.foldl min a ≤ a ∧ ∀ x ∈ l, l.foldl min a ≤ x := by
  induction l generalizing a with
  | nil => simp
  | cons b t ih =>
    obtain ⟨h1, h2⟩ := ih (min a b)
    refine ⟨le_trans h1 (min_le_left a b), ?_⟩
    intro x hx
    rcases List.mem_cons.mp hx with h | h
    · exact le_trans (le_trans h1 (min_le_right a b)) (le_of_eq h.symm)
    · exact h2 x h

theorem foldl_max_mem {α : Type} [LinearOrder α] (l : List α) (a : α) :
    l.foldl max a = a ∨ l.foldl max a ∈ l := by
  induction l generalizing a with
  | nil => left; rfl
  | cons b t ih =>
    rcases ih (max a b) with h | h
    · rcases max_choice a b with hm | hm
      · left; rw [List.foldl_cons, h, hm]
      · right; rw [List.foldl_cons, h, hm]; exact List.mem_cons_self b t
    · right; exact List.mem_cons_of_mem b h

theorem foldl_min_mem {α : Type} [LinearOrder α] (l : List α) (a : α) :
    l.foldl min a = a ∨ l.foldl min a ∈ l := by
  induction l generalizing a with
  | nil => left; rfl
  | cons b t ih =>
    rcases ih (min a b) with h | h
    · rcases min_choice a b with hm | hm
      · left; rw [List.foldl_cons, h, hm]
      · right; rw [List.foldl_cons, h, hm]; exact List.mem_cons_self b t
    · right; exact List.mem_cons_of_mem b h

theorem le_listMaxD {α : Type} [LinearOrder α] (d : α) (l : List α) (x : α)
    (hx : x ∈ l) : x ≤ listMaxD d l := by
  cases l with
  | nil => cases hx
  | cons a t =>
    rcases List.mem_cons.mp hx with h | h
    · subst h
      exact (le_foldl_max t x).1
    · exact (le_foldl_max t a).2 x h

theorem listMinD_le {α : Type} [LinearOrder α] (d : α) (l : List α) (x : α)
    (hx : x ∈ l) : listMinD d l ≤ x := by
  cases l with
  | nil => cases hx
  | cons a t =>
    rcases List.mem_cons.mp hx with h | h
    · subst h
      exact (foldl_min_le t x).1
    · exact (foldl_min_le t a).2 x h

theorem listMaxD_mem {α : Type} [LinearOrder α] (d : α) (l : List α)
    (hl : l ≠ []) : listMaxD d l ∈ l := by
  cases l with
  | nil => exact absurd rfl hl
  | cons a t =>
    rcases foldl_max_mem t a with h | h
    · rw [listMaxD, h]; exact List.mem_cons_self a t
    · exact List.mem_cons_of_mem a h

theorem listMinD_mem {α : Type} [LinearOrder α] (d : α) (l : List α)
    (hl : l ≠ []) : listMinD d l ∈ l := by
  cases l with
  | nil => exact absurd rfl hl
  | cons a t =>
    rcases foldl_min_mem t a with h | h
    · rw [listMinD, h]; exact List.mem_cons_self a t
    · exact List.mem_cons_of_mem a h

theorem mem_voxelTriples (d1 d2 d3 : ℕ) (t : VoxIdx) :
    t ∈ voxelTriples d1 d2 d3 ↔ t.1 < d1 ∧ t.2.1 < d2 ∧ t.2.2 < d3 := by
  obtain ⟨a, b, c⟩ := t
  simp [voxelTriples, List.mem_flatMap, List.mem_range, List.mem_map]
  constructor
  · rintro ⟨i, hi, j, hj, m, hm, e1, e2, e3⟩
    subst e1; subst e2; subst e3
    exact ⟨hi, hj, hm⟩
  · rintro ⟨h1, h2, h3⟩
    exact ⟨a, h1, b, h2, c, h3, rfl, rfl, rfl⟩

theorem mem_voxFinset (N : ℕ) (t : VoxIdx) :
    t ∈ voxFinset N ↔ t.1 < N ∧ t.2.1 < N ∧ t.2.2 < N := by
  obtain ⟨a, b, c⟩ := t
  simp [voxFinset, Finset.mem_product, Finset.mem_range]

/-! Claim theorems: geometry, cache, load errors, ROI round trip. -/

/-- C4: compute_roi_miller_mask classifies a voxel centre as inside the slab
exactly when |(p - c) . n - d| < t/2 with strict inequality, and
filter_points_by_miller keeps a point under exactly the same formula, so
histogram masking and averaged-position filtering agree on slab membership
for identical inputs. -/
theorem c4_mask_and_filter_same_formula (roi : RoiIndices) (gp : GridParams)
    (mp : MillerParams) (nv : Vec3) (hn : mp.n = some nv)
    (hu : mp.use_miller = true) (t : VoxIdx) (pts : List Vec3) (p : Vec3) :
    (roiMillerMaskAt roi gp nv mp.thickness mp.offset t = true ↔
      millerInsideSpec (roiVoxelCenter roi gp t) gp.cell_center nv mp.offset mp.thickness)
    ∧ (p ∈ filterPointsByMiller pts gp.cell_center mp ↔
      p ∈ pts ∧ millerInsideSpec p gp.cell_center nv mp.offset mp.thickness) := by
  constructor
  · simp [roiMillerMaskAt, millerInsideSpec, Vec3.dot, Vec3.sub]
  · obtain ⟨u, mh, mk, ml, mt, mo, mn⟩ := mp
    simp only [MillerParams.n] at hn
    simp only [MillerParams.use_miller] at hu
    subst hn
    subst hu
    simp [filterPointsByMiller, millerInsideSpec, Vec3.dot, Vec3.sub,
      List.mem_filter]

theorem c4_witness :
    (roiMillerMaskAt ⟨0, 0, 0, 0, 0, 0⟩ ⟨⟨0, 0, 0⟩, ⟨1, 1, 1⟩, ⟨0, 0, 0⟩⟩
        ⟨1, 0, 0⟩ 2 0 (0, 0, 0) = true ↔
      millerInsideSpec
        (roiVoxelCenter ⟨0, 0, 0, 0, 0, 0⟩ ⟨⟨0, 0, 0⟩, ⟨1, 1, 1⟩, ⟨0, 0, 0⟩⟩ (0, 0, 0))
        ⟨0, 0, 0⟩ ⟨1, 0, 0⟩ 0 2)
    ∧ ((⟨0, 0, 0⟩ : Vec3) ∈ filterPointsByMiller [⟨0, 0, 0⟩] ⟨0, 0, 0⟩
        ⟨true, 1, 0, 0, 2, 0, some ⟨1, 0, 0⟩⟩ ↔
      (⟨0, 0, 0⟩ : Vec3) ∈ [(⟨0, 0, 0⟩ : Vec3)] ∧
        millerInsideSpec ⟨0, 0, 0⟩ ⟨0, 0, 0⟩ ⟨1, 0, 0⟩ 0 2) :=
  c4_mask_and_filter_same_formula ⟨0, 0, 0, 0, 0, 0⟩
    ⟨⟨0, 0, 0⟩, ⟨1, 1, 1⟩, ⟨0, 0, 0⟩⟩ ⟨true, 1, 0, 0, 2, 0, some ⟨1, 0, 0⟩⟩
    ⟨1, 0, 0⟩ rfl rfl (0, 0, 0) [⟨0, 0, 0⟩] ⟨0, 0, 0⟩

/-- C5: with Miller indices h = k = l = 0 the derived normal is None, Miller
slicing is treated as disabled: filter_points_by_miller returns the input
unchanged, _precompute_region_data produces no mask, and the masking step of
the histogram pass zeroes no voxel; the normalisation by the zero norm (the
only potential NaN source) is never evaluated, since the guard h2+k2+l2 > 0
fails. -/
theorem c5_zero_miller_disabled (normalize : ℤ → ℤ → ℤ → Vec3) (use : Bool)
    (thickness offset : ℚ) (pts : List Vec3) (c : Vec3) (roi : RoiIndices)
    (gp : GridParams) (sub : VoxIdx → ℚ) (t : VoxIdx) :
    (getMillerParameters normalize use 0 0 0 thickness offset).n = none
    ∧ filterPointsByMiller pts c (getMillerParameters normalize use 0 0 0 thickness offset) = pts
    ∧ (computeRegionData roi gp (getMillerParameters normalize use 0 0 0 thickness offset)).miller_mask = none
    ∧ maskedSubAt
        (computeRegionData roi gp (getMillerParameters normalize use 0 0 0 thickness offset)).miller_mask
        sub t = sub t := by
  have hn : (getMillerParameters normalize use 0 0 0 thickness offset).n = none := by
    cases use <;> simp [getMillerParameters, normSq]
  have hf : filterPointsByMiller pts c (getMillerParameters normalize use 0 0 0 thickness offset) = pts := by
    cases use <;> simp [filterPointsByMiller, getMillerParameters, normSq]
  have hm : (computeRegionData roi gp (getMillerParameters normalize use 0 0 0 thickness offset)).miller_mask = none := by
    cases use <;> simp [computeRegionData, getMillerParameters, normSq]
  refine ⟨hn, hf, hm, ?_⟩
  rw [hm]
  rfl

/-- C7: calling _precompute_region_data twice in succession with identical ROI
indices and identical Miller parameters yields region data identical to a
single fresh computation: the first (miss) call returns the fresh computation
and the second (hit) call returns exactly the same data and leaves the cache
slot unchanged. -/
theorem c7_region_cache_hit_eq_miss (roi : RoiIndices) (gp : GridParams)
    (mp : MillerParams) :
    (precomputeRegionData initState roi gp mp).1 = computeRegionData roi gp mp
    ∧ (precomputeRegionData (precomputeRegionData initState roi gp mp).2 roi gp mp).1
        = computeRegionData roi gp mp
    ∧ (precomputeRegionData (precomputeRegionData initState roi gp mp).2 roi gp mp).2
        = (precomputeRegionData initState roi gp mp).2 := by
  refine ⟨rfl, ?_, ?_⟩ <;> simp [precomputeRegionData, initState]

/-- C8 counterexample: with an empty frame list, load_and_precompute raises
the descriptive ValueError and the whole load is aborted — no load result is
produced, contradicting the claimed graceful degradation of this case. -/
theorem c8_counterexample :
    loadAndPrecompute [] none [] 200 0 0 = Except.error noFramesMsg
    ∧ ∀ r : LoadResult, loadAndPrecompute [] none [] 200 0 0 ≠ Except.ok r := by
  refine ⟨rfl, ?_⟩
  intro r h
  exact Except.noConfusion h

/-- C8 amended: an empty frame set makes load_and_precompute fail fast with
the descriptive message, fatal to that load attempt, for every configuration;
graceful degradation applies to the per-species empty case, not here. -/
theorem c8_empty_frames_fatal (roiDef : Option RoiDecl)
    (tm : List (String × String)) (N aStart aStop : ℕ) :
    loadAndPrecompute [] roiDef tm N aStart aStop = Except.error noFramesMsg := rfl

/-- C9: a fractional ROI declaration and an absolute ROI declaration that
resolve to the same physical axis-aligned box produce identical initial ROI
bounds from _calculate_roi_bounds. -/
theorem c9_frac_abs_roundtrip (cell : Mat3) (flo fhi alo ahi : Vec3)
    (hres : resolvedFracBounds cell flo fhi = (alo, ahi)) :
    calcRoiBounds (some ⟨some ("fractional"), some (flo, fhi)⟩) cell
      = calcRoiBounds (some ⟨some ("absolute"), some (alo, ahi)⟩) cell := by
  have h1 : calcRoiBounds (some ⟨some ("fractional"), some (flo, fhi)⟩) cell
      = Except.ok (resolvedFracBounds cell flo fhi) := rfl
  have h2 : calcRoiBounds (some ⟨some ("absolute"), some (alo, ahi)⟩) cell
      = Except.ok (alo, ahi) := rfl
  rw [h1, h2, hres]

theorem c9_witness :
    calcRoiBounds
        (some ⟨some ("fractional"), some (⟨1/10, 1/5, 0⟩, ⟨1/2, 3/5, 1⟩)⟩)
        ⟨⟨10, 0, 0⟩, ⟨0, 10, 0⟩, ⟨0, 0, 10⟩⟩
      = calcRoiBounds
        (some ⟨some ("absolute"), some (⟨1, 2, 0⟩, ⟨5, 6, 10⟩)⟩)
        ⟨⟨10, 0, 0⟩, ⟨0, 10, 0⟩, ⟨0, 0, 10⟩⟩ :=
  c9_frac_abs_roundtrip ⟨⟨10, 0, 0⟩, ⟨0, 10, 0⟩, ⟨0, 0, 10⟩⟩
    ⟨1/10, 1/5, 0⟩ ⟨1/2, 3/5, 1⟩ ⟨1, 2, 0⟩ ⟨5, 6, 10⟩ (by
      norm_num [resolvedFracBounds, cornerList, rowMul, Vec3.smul, Vec3.add,
        listVecMin, listVecMax, compMin, compMax, min_def, max_def])

/-! Transfer-function lemmas and claims C2, C3. -/

theorem alphaByte_at_lower (pw : ℚ → ℚ → ℚ) (hpw : ∀ g : ℚ, 0 < g → pw 0 g = 0)
    (lower upper maxAlpha gamma : ℚ) (hg : 0 ≤ gamma) :
    alphaByte pw lower upper maxAlpha gamma lower = 0 := by
  have hsc : clipQ 0 1 ((lower - lower) / (upper - lower + epsClip)) = 0 := by
    simp [clipQ]
  rcases eq_or_lt_of_le hg with h0 | h0
  · simp [alphaByte, ← h0, lt_irrefl]
  · have hne : gamma ≠ 0 := ne_of_gt h0
    have hsc0 : clipQ 0 1 (0 : ℚ) = 0 := by simp [clipQ]
    simp [alphaByte, hne, hsc, hsc0, hpw gamma h0, astypeUint8]

/-- Alpha of a sample exactly 0 is the zero byte whenever the lower threshold
is nonnegative: either the band test fails, or (lower = 0) the scaled value is
0 and the gamma power of 0 vanishes. -/
theorem alphaByte_at_zero (pw : ℚ → ℚ → ℚ) (hpw : ∀ g : ℚ, 0 < g → pw 0 g = 0)
    (lower upper maxAlpha gamma : ℚ) (hl : 0 ≤ lower) (hg : 0 ≤ gamma) :
    alphaByte pw lower upper maxAlpha gamma 0 = 0 := by
  rcases eq_or_lt_of_le hl with hl0 | hl0
  · rw [← hl0]
    exact alphaByte_at_lower pw hpw 0 upper maxAlpha gamma hg
  · rcases eq_or_lt_of_le hg with h0 | h0
    · simp [alphaByte, ← h0, not_lt.mpr (le_of_lt hl0)]
    · simp [alphaByte, ne_of_gt h0, not_le.mpr hl0]

/-- C3: a normalized density sample exactly at the lower threshold fraction
receives alpha byte 0 when gamma = 0 (the visible band uses a strict lower
edge), and for gamma > 0 it can only be nonzero strictly inside the band —
the sample sits on the band edge, so its alpha is again 0. -/
theorem c3_alpha_at_lower_threshold (pw : ℚ → ℚ → ℚ)
    (hpw : ∀ g : ℚ, 0 < g → pw 0 g = 0) (lower upper maxAlpha gamma : ℚ) :
    (gamma = 0 → alphaByte pw lower upper maxAlpha gamma lower = 0)
    ∧ (0 < gamma → alphaByte pw lower upper maxAlpha gamma lower = 0) := by
  constructor
  · intro h
    exact alphaByte_at_lower pw hpw lower upper maxAlpha gamma (le_of_eq h.symm)
  · intro h
    exact alphaByte_at_lower pw hpw lower upper maxAlpha gamma (le_of_lt h)

theorem c3_witness :
    alphaByte (fun _ _ => 0) (77/255) (178/255) 1 0 (77/255) = 0
    ∧ alphaByte (fun _ _ => 0) (77/255) (178/255) 1 (1/2) (77/255) = 0 :=
  ⟨(c3_alpha_at_lower_threshold (fun _ _ => 0) (fun _ _ => rfl)
      (77/255) (178/255) 1 0).1 rfl,
   (c3_alpha_at_lower_threshold (fun _ _ => 0) (fun _ _ => rfl)
      (77/255) (178/255) 1 (1/2)).2 (by norm_num)⟩

/-- C2: a species with zero positions inside the initial ROI gets a stored
zero-valued field (under the dict key data; the raw_data key is absent) and a
warning instead of a load failure, and the histogram visualisation pass for it
renders nothing — internally the read of raw_data raises a KeyError, which the
per-species try/except of the pass catches — rather than aborting the load or
the pass. -/
theorem c2_empty_species_graceful (posArr : List (List Vec3)) (idxs : List ℕ)
    (aStart aStop : ℕ) (gmin gmax spacing : Vec3) (N : ℕ) (atype : String)
    (pw : ℚ → ℚ → ℚ) (smooth : (VoxIdx → ℚ) → (VoxIdx → ℚ)) (sigma : ℕ)
    (roi : RoiIndices) (mask : Option (VoxIdx → Bool))
    (lower upper maxAlpha gamma : ℚ)
    (hps : (processFramesSpecies posArr idxs aStart aStop gmin gmax).global_positions = []) :
    ((speciesHistogramStep atype (processFramesSpecies posArr idxs aStart aStop gmin gmax).global_positions gmin gmax spacing N).1).dataKey = some (fun _ => 0)
    ∧ ((speciesHistogramStep atype (processFramesSpecies posArr idxs aStart aStop gmin gmax).global_positions gmin gmax spacing N).1).global_max = 0
    ∧ warnNoPositions atype ∈ (speciesHistogramStep atype (processFramesSpecies posArr idxs aStart aStop gmin gmax).global_positions gmin gmax spacing N).2
    ∧ visualiseHistogramCore pw smooth ((speciesHistogramStep atype (processFramesSpecies posArr idxs aStart aStop gmin gmax).global_positions gmin gmax spacing N).1) sigma roi mask lower upper maxAlpha gamma = Except.error keyErrorMsg
    ∧ (visualiseHistogram pw smooth ((speciesHistogramStep atype (processFramesSpecies posArr idxs aStart aStop gmin gmax).global_positions gmin gmax spacing N).1) sigma roi mask lower upper maxAlpha gamma).rendered = false := by
  rw [hps]
  exact ⟨rfl, rfl, List.mem_singleton.mpr rfl, rfl, rfl⟩

theorem c2_witness :
    ((speciesHistogramStep ("Li") (processFramesSpecies [[⟨20, 20, 20⟩]] [0] 0 1 ⟨0, 0, 0⟩ ⟨10, 10, 10⟩).global_positions ⟨0, 0, 0⟩ ⟨10, 10, 10⟩ ⟨1, 1, 1⟩ 4).1).dataKey = some (fun _ => 0)
    ∧ ((speciesHistogramStep ("Li") (processFramesSpecies [[⟨20, 20, 20⟩]] [0] 0 1 ⟨0, 0, 0⟩ ⟨10, 10, 10⟩).global_positions ⟨0, 0, 0⟩ ⟨10, 10, 10⟩ ⟨1, 1, 1⟩ 4).1).global_max = 0
    ∧ warnNoPositions ("Li") ∈ (speciesHistogramStep ("Li") (processFramesSpecies [[⟨20, 20, 20⟩]] [0] 0 1 ⟨0, 0, 0⟩ ⟨10, 10, 10⟩).global_positions ⟨0, 0, 0⟩ ⟨10, 10, 10⟩ ⟨1, 1, 1⟩ 4).2
    ∧ visualiseHistogramCore (fun _ _ => 0) (fun f => f) ((speciesHistogramStep ("Li") (processFramesSpecies [[⟨20, 20, 20⟩]] [0] 0 1 ⟨0, 0, 0⟩ ⟨10, 10, 10⟩).global_positions ⟨0, 0, 0⟩ ⟨10, 10, 10⟩ ⟨1, 1, 1⟩ 4).1) 0 ⟨0, 0, 0, 0, 0, 0⟩ none 0 0 0 0 = Except.error keyErrorMsg
    ∧ (visualiseHistogram (fun _ _ => 0) (fun f => f) ((speciesHistogramStep ("Li") (processFramesSpecies [[⟨20, 20, 20⟩]] [0] 0 1 ⟨0, 0, 0⟩ ⟨10, 10, 10⟩).global_positions ⟨0, 0, 0⟩ ⟨10, 10, 10⟩ ⟨1, 1, 1⟩ 4).1) 0 ⟨0, 0, 0, 0, 0, 0⟩ none 0 0 0 0).rendered = false :=
  c2_empty_species_graceful [[⟨20, 20, 20⟩]] [0] 0 1 ⟨0, 0, 0⟩ ⟨10, 10, 10⟩
    ⟨1, 1, 1⟩ 4 ("Li") (fun _ _ => 0) (fun f => f) 0 ⟨0, 0, 0, 0, 0, 0⟩ none 0 0 0 0
    (by norm_num [processFramesSpecies, speciesTrajectory, inRoi, List.filter])

/-! Binning lemmas: the (N-1)-th edge equals the ROI maximum, and every
clipped ROI position falls in a bin of index at most N-2. -/

theorem edgeAt_pre_snap (mn mx s : ℚ) (N : ℕ) (hN : 2 ≤ N)
    (hsnap : mn + ((N : ℚ) - 1) * s = mx) : edgeAt mn mx s N (N - 1) = mx := by
  unfold edgeAt
  rw [if_neg (by omega)]
  have hc : ((N - 1 : ℕ) : ℚ) = (N : ℚ) - 1 := by
    have h1 : 1 ≤ N := by omega
    push_cast [Nat.cast_sub h1]
    ring
  rw [hc]
  exact hsnap

theorem edgeAt_zero (mn mx s : ℚ) (N : ℕ) (hN : 2 ≤ N) :
    edgeAt mn mx s N 0 = mn := by
  unfold edgeAt
  rw [if_neg (by omega)]
  push_cast
  ring

theorem clipQ_mem (lo hi v : ℚ) (h : lo ≤ hi) :
    lo ≤ clipQ lo hi v ∧ clipQ lo hi v ≤ hi := by
  unfold clipQ
  exact ⟨le_min (le_max_right v lo) h, min_le_right _ _⟩

theorem binIndex1D_total (mn mx s : ℚ) (N : ℕ) (v : ℚ) (hN : 2 ≤ N)
    (hsnap : mn + ((N : ℚ) - 1) * s = mx) (h1 : mn ≤ v) (h2 : v < mx) :
    ∃ b, binIndex1D mn mx s N v = some b ∧ b + 1 < N := by
  have hPN : ∀ i ∈ (List.range (N + 1)).filter (fun i => decide (edgeAt mn mx s N i ≤ v)),
      i ≤ N - 2 := by
    intro i hi
    rw [List.mem_filter, List.mem_range] at hi
    obtain ⟨hir, hPi⟩ := hi
    rw [decide_eq_true_eq] at hPi
    by_contra hgt
    push_neg at hgt
    have hcase : i = N - 1 ∨ i = N := by omega
    rcases hcase with h | h
    · subst h
      rw [edgeAt_pre_snap mn mx s N hN hsnap] at hPi
      exact absurd hPi (not_le.mpr h2)
    · rw [h] at hPi
      rw [show edgeAt mn mx s N N = mx from if_pos rfl] at hPi
      exact absurd hPi (not_le.mpr h2)
  have hc1 : 1 ≤ (List.range (N + 1)).countP (fun i => decide (edgeAt mn mx s N i ≤ v)) := by
    have h0 : (fun i => decide (edgeAt mn mx s N i ≤ v)) 0 = true := by
      simp only [edgeAt_zero mn mx s N hN]
      exact decide_eq_true h1
    exact List.countP_pos_iff.mpr ⟨0, List.mem_range.mpr (by omega), h0⟩
  have hc2 : (List.range (N + 1)).countP (fun i => decide (edgeAt mn mx s N i ≤ v)) ≤ N - 1 := by
    rw [List.countP_eq_length_filter]
    have hnd : ((List.range (N + 1)).filter (fun i => decide (edgeAt mn mx s N i ≤ v))).Nodup :=
      (List.nodup_range _).filter _
    rw [← List.toFinset_card_of_nodup hnd]
    have hsubs : ((List.range (N + 1)).filter (fun i => decide (edgeAt mn mx s N i ≤ v))).toFinset
        ⊆ Finset.range (N - 1) := by
      intro i hi
      rw [List.mem_toFinset] at hi
      rw [Finset.mem_range]
      have := hPN i hi
      omega
    calc ((List.range (N + 1)).filter (fun i => decide (edgeAt mn mx s N i ≤ v))).toFinset.card
        ≤ (Finset.range (N - 1)).card := Finset.card_le_card hsubs
      _ = N - 1 := Finset.card_range _
  refine ⟨(List.range (N + 1)).countP (fun i => decide (edgeAt mn mx s N i ≤ v)) - 1, ?_, by omega⟩
  simp only [binIndex1D]
  rw [if_neg (ne_of_lt h2)]
  rw [if_pos ⟨hc1, by omega⟩]

theorem binIndex3_total (gmin gmax spacing : Vec3) (N : ℕ) (p : Vec3)
    (hN : 2 ≤ N)
    (hsx : gmin.x + ((N : ℚ) - 1) * spacing.x = gmax.x)
    (hsy : gmin.y + ((N : ℚ) - 1) * spacing.y = gmax.y)
    (hsz : gmin.z + ((N : ℚ) - 1) * spacing.z = gmax.z)
    (hdx : epsClip < gmax.x - gmin.x) (hdy : epsClip < gmax.y - gmin.y)
    (hdz : epsClip < gmax.z - gmin.z)
    (hp : inRoi gmin gmax p = true) :
    ∃ t : VoxIdx, binIndex3 gmin gmax spacing N (clipToRoi gmin gmax p) = some t
      ∧ t.1 + 1 < N ∧ t.2.1 + 1 < N ∧ t.2.2 + 1 < N := by
  have heps : (0 : ℚ) < epsClip := by norm_num [epsClip]
  simp only [inRoi, decide_eq_true_eq] at hp
  obtain ⟨h1, h2, h3, h4, h5, h6⟩ := hp
  have hex : gmin.x ≤ (clipToRoi gmin gmax p).x ∧ (clipToRoi gmin gmax p).x < gmax.x := by
    obtain ⟨ha, hb⟩ := clipQ_mem gmin.x (gmax.x - epsClip) p.x (by linarith)
    exact ⟨ha, lt_of_le_of_lt hb (by linarith)⟩
  have hey : gmin.y ≤ (clipToRoi gmin gmax p).y ∧ (clipToRoi gmin gmax p).y < gmax.y := by
    obtain ⟨ha, hb⟩ := clipQ_mem gmin.y (gmax.y - epsClip) p.y (by linarith)
    exact ⟨ha, lt_of_le_of_lt hb (by linarith)⟩
  have hez : gmin.z ≤ (clipToRoi gmin gmax p).z ∧ (clipToRoi gmin gmax p).z < gmax.z := by
    obtain ⟨ha, hb⟩ := clipQ_mem gmin.z (gmax.z - epsClip) p.z (by linarith)
    exact ⟨ha, lt_of_le_of_lt hb (by linarith)⟩
  obtain ⟨b1, hb1, hb1lt⟩ :=
    binIndex1D_total gmin.x gmax.x spacing.x N (clipToRoi gmin gmax p).x hN hsx hex.1 hex.2
  obtain ⟨b2, hb2, hb2lt⟩ :=
    binIndex1D_total gmin.y gmax.y spacing.y N (clipToRoi gmin gmax p).y hN hsy hey.1 hey.2
  obtain ⟨b3, hb3, hb3lt⟩ :=
    binIndex1D_total gmin.z gmax.z spacing.z N (clipToRoi gmin gmax p).z hN hsz hez.1 hez.2
  exact ⟨(b1, b2, b3), by simp [binIndex3, hb1, hb2, hb3], hb1lt, hb2lt, hb3lt⟩

theorem loadSpacing_snap (gmin gmax : Vec3) (N : ℕ) (hN : 2 ≤ N)
    (hdx : epsClip < gmax.x - gmin.x) (hdy : epsClip < gmax.y - gmin.y)
    (hdz : epsClip < gmax.z - gmin.z) :
    gmin.x + ((N : ℚ) - 1) * (loadSpacing gmin gmax N).x = gmax.x
    ∧ gmin.y + ((N : ℚ) - 1) * (loadSpacing gmin gmax N).y = gmax.y
    ∧ gmin.z + ((N : ℚ) - 1) * (loadSpacing gmin gmax N).z = gmax.z := by
  have heps : (0 : ℚ) < epsClip := by norm_num [epsClip]
  have hno : loadDims gmin gmax = Vec3.sub gmax gmin := by
    unfold loadDims
    rw [if_neg]
    push_neg
    simp only [Vec3.sub]
    exact ⟨by linarith, by linarith, by linarith⟩
  have hNq : (0 : ℚ) < (N : ℚ) - 1 := by
    have : (2 : ℚ) ≤ (N : ℚ) := by exact_mod_cast hN
    linarith
  have hx : (loadSpacing gmin gmax N).x = (gmax.x - gmin.x) / ((N : ℚ) - 1) := by
    simp only [loadSpacing, hno, Vec3.sub]
    rw [if_neg (div_ne_zero (by linarith) (ne_of_gt hNq))]
  have hy : (loadSpacing gmin gmax N).y = (gmax.y - gmin.y) / ((N : ℚ) - 1) := by
    simp only [loadSpacing, hno, Vec3.sub]
    rw [if_neg (div_ne_zero (by linarith) (ne_of_gt hNq))]
  have hz : (loadSpacing gmin gmax N).z = (gmax.z - gmin.z) / ((N : ℚ) - 1) := by
    simp only [loadSpacing, hno, Vec3.sub]
    rw [if_neg (div_ne_zero (by linarith) (ne_of_gt hNq))]
  refine ⟨?_, ?_, ?_⟩
  · rw [hx, mul_div_cancel₀ _ (ne_of_gt hNq)]
    ring
  · rw [hy, mul_div_cancel₀ _ (ne_of_gt hNq)]
    ring
  · rw [hz, mul_div_cancel₀ _ (ne_of_gt hNq)]
    ring

theorem histCounts_sum_eq_length (ps : List Vec3) (gmin gmax spacing : Vec3) (N : ℕ)
    (htot : ∀ p ∈ ps, ∃ t ∈ voxFinset N,
      binIndex3 gmin gmax spacing N (clipToRoi gmin gmax p) = some t) :
    (∑ t ∈ voxFinset N, histCounts ps gmin gmax spacing N t) = ps.length := by
  induction ps with
  | nil => simp [histCounts]
  | cons p l ih =>
    have hl : ∀ q ∈ l, ∃ t ∈ voxFinset N,
        binIndex3 gmin gmax spacing N (clipToRoi gmin gmax q) = some t :=
      fun q hq => htot q (List.mem_cons_of_mem p hq)
    obtain ⟨t0, ht0S, ht0⟩ := htot p (List.mem_cons_self p l)
    have hstep : ∀ t : VoxIdx, histCounts (p :: l) gmin gmax spacing N t
        = histCounts l gmin gmax spacing N t
          + (if binIndex3 gmin gmax spacing N (clipToRoi gmin gmax p) = some t then 1 else 0) := by
      intro t
      simp [histCounts, List.countP_cons]
    rw [Finset.sum_congr rfl (fun t _ => hstep t), Finset.sum_add_distrib, ih hl]
    have hone : (∑ t ∈ voxFinset N,
        (if binIndex3 gmin gmax spacing N (clipToRoi gmin gmax p) = some t then 1 else 0)) = 1 := by
      have hcg : ∀ t ∈ voxFinset N,
          (if binIndex3 gmin gmax spacing N (clipToRoi gmin gmax p) = some t then 1 else 0)
            = (if t = t0 then 1 else 0) := by
        intro t _
        rw [ht0]
        by_cases h : t = t0
        · subst h
          simp
        · have h2 : t0 ≠ t := Ne.symm h
          simp [h, h2]
      rw [Finset.sum_congr rfl hcg, Finset.sum_ite_eq' (voxFinset N) t0 (fun _ => 1)]
      simp [ht0S]
    rw [hone]
    simp

/-- C1: for every species with at least one ROI-filtered raw position, the sum
over all voxels of the raw (pre-smoothing) histogram bin counts computed by
load_and_precompute equals the number of ROI-filtered raw positions produced
for that species by _process_frames, and the stored global_max equals the
count of the most populated voxel.  The synthetic 10-frame, 2-atom, full-cell,
4x4x4 scenario is the witness instance. -/
theorem c1_histogram_sum_and_max (posArr : List (List Vec3)) (idxs : List ℕ)
    (aStart aStop N : ℕ) (gmin gmax : Vec3) (atype : String)
    (hN : 2 ≤ N)
    (hdx : epsClip < gmax.x - gmin.x) (hdy : epsClip < gmax.y - gmin.y)
    (hdz : epsClip < gmax.z - gmin.z)
    (hne : (processFramesSpecies posArr idxs aStart aStop gmin gmax).global_positions ≠ []) :
    (∑ t ∈ voxFinset N,
        histCounts (processFramesSpecies posArr idxs aStart aStop gmin gmax).global_positions
          gmin gmax (loadSpacing gmin gmax N) N t)
      = (processFramesSpecies posArr idxs aStart aStop gmin gmax).global_positions.length
    ∧ ∃ t ∈ voxFinset N,
        histCounts (processFramesSpecies posArr idxs aStart aStop gmin gmax).global_positions
            gmin gmax (loadSpacing gmin gmax N) N t
          = ((speciesHistogramStep atype
              (processFramesSpecies posArr idxs aStart aStop gmin gmax).global_positions
              gmin gmax (loadSpacing gmin gmax N) N).1).global_max
        ∧ ∀ t2 ∈ voxFinset N,
            histCounts (processFramesSpecies posArr idxs aStart aStop gmin gmax).global_positions
              gmin gmax (loadSpacing gmin gmax N) N t2
            ≤ ((speciesHistogramStep atype
                (processFramesSpecies posArr idxs aStart aStop gmin gmax).global_positions
                gmin gmax (loadSpacing gmin gmax N) N).1).global_max := by
  obtain ⟨hsx, hsy, hsz⟩ := loadSpacing_snap gmin gmax N hN hdx hdy hdz
  have hroi : ∀ p ∈ (processFramesSpecies posArr idxs aStart aStop gmin gmax).global_positions,
      inRoi gmin gmax p = true := by
    intro p hp
    have hform : (processFramesSpecies posArr idxs aStart aStop gmin gmax).global_positions
        = ((speciesTrajectory posArr idxs).flatten).filter (inRoi gmin gmax) := rfl
    rw [hform] at hp
    exact (List.mem_filter.mp hp).2
  have htot : ∀ p ∈ (processFramesSpecies posArr idxs aStart aStop gmin gmax).global_positions,
      ∃ t ∈ voxFinset N,
        binIndex3 gmin gmax (loadSpacing gmin gmax N) N (clipToRoi gmin gmax p) = some t := by
    intro p hp
    obtain ⟨t, ht, hlt1, hlt2, hlt3⟩ :=
      binIndex3_total gmin gmax (loadSpacing gmin gmax N) N p hN hsx hsy hsz hdx hdy hdz
        (hroi p hp)
    exact ⟨t, (mem_voxFinset N t).mpr ⟨by omega, by omega, by omega⟩, ht⟩
  constructor
  · exact histCounts_sum_eq_length _ gmin gmax (loadSpacing gmin gmax N) N htot
  · have hstep : (speciesHistogramStep atype
        (processFramesSpecies posArr idxs aStart aStop gmin gmax).global_positions
        gmin gmax (loadSpacing gmin gmax N) N).1
      = fullHistogramData (processFramesSpecies posArr idxs aStart aStop gmin gmax).global_positions
          gmin gmax (loadSpacing gmin gmax N) N := by
      unfold speciesHistogramStep
      rw [if_neg]
      simp [List.isEmpty_iff, hne]
    rw [hstep]
    have hgm : (fullHistogramData (processFramesSpecies posArr idxs aStart aStop gmin gmax).global_positions
        gmin gmax (loadSpacing gmin gmax N) N).global_max
      = listMaxD 0 ((voxelList N).map
          (histCounts (processFramesSpecies posArr idxs aStart aStop gmin gmax).global_positions
            gmin gmax (loadSpacing gmin gmax N) N)) := rfl
    rw [hgm]
    have hvne : (voxelList N).map
        (histCounts (processFramesSpecies posArr idxs aStart aStop gmin gmax).global_positions
          gmin gmax (loadSpacing gmin gmax N) N) ≠ [] := by
      have h0 : ((0, 0, 0) : VoxIdx) ∈ voxelList N := by
        rw [voxelList, mem_voxelTriples]
        exact ⟨show 0 < N by omega, show 0 < N by omega, show 0 < N by omega⟩
      intro hcon
      rw [List.map_eq_nil_iff] at hcon
      rw [hcon] at h0
      cases h0
    obtain ⟨v, hvmem⟩ := List.mem_map.mp (listMaxD_mem 0 _ hvne)
    refine ⟨v, ?_, hvmem.2, ?_⟩
    · rw [voxelList, mem_voxelTriples] at hvmem
      rw [mem_voxFinset]
      exact hvmem.1
    · intro t2 ht2
      apply le_listMaxD
      apply List.mem_map.mpr
      refine ⟨t2, ?_, rfl⟩
      rw [voxelList, mem_voxelTriples]
      rw [mem_voxFinset] at ht2
      exact ht2

theorem c1_witness :
    (∑ t ∈ voxFinset 4,
        histCounts (processFramesSpecies (List.replicate 10 [⟨1, 2, 3⟩, ⟨7, 6, 5⟩])
            [0, 1] 0 10 ⟨0, 0, 0⟩ ⟨10, 10, 10⟩).global_positions
          ⟨0, 0, 0⟩ ⟨10, 10, 10⟩ (loadSpacing ⟨0, 0, 0⟩ ⟨10, 10, 10⟩ 4) 4 t) = 20 := by
  have h := c1_histogram_sum_and_max (List.replicate 10 [⟨1, 2, 3⟩, ⟨7, 6, 5⟩])
    [0, 1] 0 10 4 ⟨0, 0, 0⟩ ⟨10, 10, 10⟩ ("Li") (by omega)
    (by norm_num [epsClip]) (by norm_num [epsClip]) (by norm_num [epsClip])
    (by
      norm_num [processFramesSpecies, speciesTrajectory, inRoi, List.filter,
        List.replicate]
      exact List.cons_ne_nil _ _)
  rw [h.1]
  norm_num [processFramesSpecies, speciesTrajectory, inRoi, List.filter,
    List.replicate]

/-- C10: because spacing = (max - min)/(N - 1), the (N-1)-th bin edge already
equals the ROI maximum, so after the final edge is snapped to the ROI maximum
the last bin on each axis is zero-width; and since all positions are clipped
to at most max - 1e-9 before binning, for every species with at least one
ROI-filtered position the raw histogram's last layer along each axis (index
N-1) holds only zero counts. -/
theorem c10_last_layer_zero (posArr : List (List Vec3)) (idxs : List ℕ)
    (aStart aStop N : ℕ) (gmin gmax : Vec3)
    (hN : 2 ≤ N)
    (hdx : epsClip < gmax.x - gmin.x) (hdy : epsClip < gmax.y - gmin.y)
    (hdz : epsClip < gmax.z - gmin.z)
    (hne : (processFramesSpecies posArr idxs aStart aStop gmin gmax).global_positions ≠ []) :
    edgeAt gmin.x gmax.x (loadSpacing gmin gmax N).x N (N - 1) = gmax.x
    ∧ edgeAt gmin.y gmax.y (loadSpacing gmin gmax N).y N (N - 1) = gmax.y
    ∧ edgeAt gmin.z gmax.z (loadSpacing gmin gmax N).z N (N - 1) = gmax.z
    ∧ edgeAt gmin.x gmax.x (loadSpacing gmin gmax N).x N N
        - edgeAt gmin.x gmax.x (loadSpacing gmin gmax N).x N (N - 1) = 0
    ∧ edgeAt gmin.y gmax.y (loadSpacing gmin gmax N).y N N
        - edgeAt gmin.y gmax.y (loadSpacing gmin gmax N).y N (N - 1) = 0
    ∧ edgeAt gmin.z gmax.z (loadSpacing gmin gmax N).z N N
        - edgeAt gmin.z gmax.z (loadSpacing gmin gmax N).z N (N - 1) = 0
    ∧ ∀ t ∈ voxFinset N, (t.1 = N - 1 ∨ t.2.1 = N - 1 ∨ t.2.2 = N - 1) →
        histCounts (processFramesSpecies posArr idxs aStart aStop gmin gmax).global_positions
          gmin gmax (loadSpacing gmin gmax N) N t = 0 := by
  obtain ⟨hsx, hsy, hsz⟩ := loadSpacing_snap gmin gmax N hN hdx hdy hdz
  have hex := edgeAt_pre_snap gmin.x gmax.x (loadSpacing gmin gmax N).x N hN hsx
  have hey := edgeAt_pre_snap gmin.y gmax.y (loadSpacing gmin gmax N).y N hN hsy
  have hez := edgeAt_pre_snap gmin.z gmax.z (loadSpacing gmin gmax N).z N hN hsz
  have hlastx : edgeAt gmin.x gmax.x (loadSpacing gmin gmax N).x N N = gmax.x := if_pos rfl
  have hlasty : edgeAt gmin.y gmax.y (loadSpacing gmin gmax N).y N N = gmax.y := if_pos rfl
  have hlastz : edgeAt gmin.z gmax.z (loadSpacing gmin gmax N).z N N = gmax.z := if_pos rfl
  refine ⟨hex, hey, hez, by rw [hex, hlastx]; ring, by rw [hey, hlasty]; ring,
    by rw [hez, hlastz]; ring, ?_⟩
  intro t htS hlayer
  have hroi : ∀ p ∈ (processFramesSpecies posArr idxs aStart aStop gmin gmax).global_positions,
      inRoi gmin gmax p = true := by
    intro p hp
    have hform : (processFramesSpecies posArr idxs aStart aStop gmin gmax).global_positions
        = ((speciesTrajectory posArr idxs).flatten).filter (inRoi gmin gmax) := rfl
    rw [hform] at hp
    exact (List.mem_filter.mp hp).2
  unfold histCounts
  rw [List.countP_eq_zero]
  intro p hp
  simp only [decide_eq_true_eq]
  intro heq
  obtain ⟨t2, ht2, hlt1, hlt2, hlt3⟩ :=
    binIndex3_total gmin gmax (loadSpacing gmin gmax N) N p hN hsx hsy hsz hdx hdy hdz
      (hroi p hp)
  rw [heq] at ht2
  have ht2e : t = t2 := Option.some_injective _ ht2
  obtain ⟨a, b, c⟩ := t
  obtain ⟨a2, b2, c2⟩ := t2
  obtain ⟨e1, e2, e3⟩ := Prod.mk.injEq .. ▸ ht2e
  simp only at hlayer hlt1 hlt2 hlt3
  rcases hlayer with h | h | h <;> omega

theorem c10_witness :
    edgeAt 0 8 (loadSpacing ⟨0, 0, 0⟩ ⟨8, 9, 10⟩ 4).x 4 3 = 8
    ∧ histCounts (processFramesSpecies [[⟨1, 2, 3⟩]] [0] 0 1 ⟨0, 0, 0⟩ ⟨8, 9, 10⟩).global_positions
        ⟨0, 0, 0⟩ ⟨8, 9, 10⟩ (loadSpacing ⟨0, 0, 0⟩ ⟨8, 9, 10⟩ 4) 4 (3, 0, 0) = 0 := by
  have h := c10_last_layer_zero [[⟨1, 2, 3⟩]] [0] 0 1 4 ⟨0, 0, 0⟩ ⟨8, 9, 10⟩ (by omega)
    (by norm_num [epsClip]) (by norm_num [epsClip]) (by norm_num [epsClip])
    (by norm_num [processFramesSpecies, speciesTrajectory, inRoi, List.filter])
  exact ⟨h.1, h.2.2.2.2.2.2 (3, 0, 0)
    ((mem_voxFinset 4 (3, 0, 0)).mpr
      ⟨show 3 < 4 by omega, show 0 < 4 by omega, show 0 < 4 by omega⟩)
    (Or.inl rfl)⟩

theorem visualiseHistogram_eq (pw : ℚ → ℚ → ℚ)
    (smooth : (VoxIdx → ℚ) → (VoxIdx → ℚ)) (hd : HistogramData)
    (raw : VoxIdx → ℕ) (sigma : ℕ) (roi : RoiIndices)
    (mask : Option (VoxIdx → Bool)) (lower upper maxAlpha gamma : ℚ)
    (hraw : hd.raw_data = some raw) :
    visualiseHistogram pw smooth hd sigma roi mask lower upper maxAlpha gamma
      = (if (visibleVals (subDataAt (processedOf smooth raw sigma) roi) mask
              (roiDims roi).1 (roiDims roi).2.1 (roiDims roi).2.2).isEmpty
         then { rendered := false, alpha := fun _ => 0 }
         else { rendered := true,
                alpha := fun t => alphaByte pw lower upper maxAlpha gamma
                  (visNormalizedAt (subDataAt (processedOf smooth raw sigma) roi) mask
                    (listMinD 0 (visibleVals (subDataAt (processedOf smooth raw sigma) roi) mask
                      (roiDims roi).1 (roiDims roi).2.1 (roiDims roi).2.2))
                    (listMaxD 0 (visibleVals (subDataAt (processedOf smooth raw sigma) roi) mask
                      (roiDims roi).1 (roiDims roi).2.1 (roiDims roi).2.2)) t) }) := by
  obtain ⟨dk, rd, sd, o, sp, g1, g2⟩ := hd
  simp only at hraw
  subst hraw
  unfold visualiseHistogram visualiseHistogramCore
  by_cases hv : (visibleVals (subDataAt (processedOf smooth raw sigma) roi) mask
      (roiDims roi).1 (roiDims roi).2.1 (roiDims roi).2.2).isEmpty = true
  · simp only [hv, if_true]
  · simp only [Bool.not_eq_true] at hv
    simp only [hv, Bool.false_eq_true, if_false]

/-- C6: every voxel of the ROI sub-array excluded by the Miller mask receives
alpha byte 0 in the RGBA output of _visualise_histogram, regardless of that
voxel's density value, for all lower/upper threshold fractions in [0,1], all
gamma in [0,2], and any max-opacity fraction. -/
theorem c6_masked_voxel_alpha_zero (pw : ℚ → ℚ → ℚ)
    (hpw : ∀ g : ℚ, 0 < g → pw 0 g = 0)
    (smooth : (VoxIdx → ℚ) → (VoxIdx → ℚ)) (hd : HistogramData)
    (raw : VoxIdx → ℕ) (sigma : ℕ) (roi : RoiIndices) (m : VoxIdx → Bool)
    (lower upper maxAlpha gamma : ℚ) (t : VoxIdx)
    (hraw : hd.raw_data = some raw)
    (hnn : ∀ u : VoxIdx, 0 ≤ processedOf smooth raw sigma u)
    (hl0 : 0 ≤ lower) (hl1 : lower ≤ 1) (hu0 : 0 ≤ upper) (hu1 : upper ≤ 1)
    (hg0 : 0 ≤ gamma) (hg2 : gamma ≤ 2)
    (hm : m t = false)
    (hrend : (visualiseHistogram pw smooth hd sigma roi (some m) lower upper
        maxAlpha gamma).rendered = true) :
    (visualiseHistogram pw smooth hd sigma roi (some m) lower upper maxAlpha
        gamma).alpha t = 0 := by
  rw [visualiseHistogram_eq pw smooth hd raw sigma roi (some m) lower upper maxAlpha gamma hraw]
    at hrend ⊢
  by_cases hv : (visibleVals (subDataAt (processedOf smooth raw sigma) roi) (some m)
      (roiDims roi).1 (roiDims roi).2.1 (roiDims roi).2.2).isEmpty = true
  · rw [if_pos hv] at hrend
    exact absurd hrend (by simp)
  · rw [if_neg hv] at hrend ⊢
    show alphaByte pw lower upper maxAlpha gamma
      (visNormalizedAt (subDataAt (processedOf smooth raw sigma) roi) (some m)
        (listMinD 0 (visibleVals (subDataAt (processedOf smooth raw sigma) roi) (some m)
          (roiDims roi).1 (roiDims roi).2.1 (roiDims roi).2.2))
        (listMaxD 0 (visibleVals (subDataAt (processedOf smooth raw sigma) roi) (some m)
          (roiDims roi).1 (roiDims roi).2.1 (roiDims roi).2.2)) t) = 0
    set sub := subDataAt (processedOf smooth raw sigma) roi with hsubdef
    set vis := visibleVals sub (some m)
      (roiDims roi).1 (roiDims roi).2.1 (roiDims roi).2.2 with hvisdef
    have hvne : vis ≠ [] := by
      intro hcon
      rw [hcon] at hv
      exact hv rfl
    have hsubnn : ∀ v ∈ vis, 0 ≤ v := by
      intro v hv2
      rw [hvisdef] at hv2
      have hform : visibleVals sub (some m)
          (roiDims roi).1 (roiDims roi).2.1 (roiDims roi).2.2
          = (voxelTriples (roiDims roi).1 (roiDims roi).2.1 (roiDims roi).2.2).filterMap
              (fun u => if m u then some (sub u) else none) := rfl
      rw [hform] at hv2
      obtain ⟨u, hu1, hu2⟩ := List.mem_filterMap.mp hv2
      by_cases hmu : m u = true
      · rw [if_pos hmu] at hu2
        have : v = sub u := (Option.some_injective _ hu2).symm
        rw [this, hsubdef]
        exact hnn _
      · rw [if_neg hmu] at hu2
        cases hu2
    have hdmin0 : 0 ≤ listMinD 0 vis := hsubnn _ (listMinD_mem 0 vis hvne)
    have hminmax : listMinD 0 vis ≤ listMaxD 0 vis :=
      le_listMaxD 0 vis _ (listMinD_mem 0 vis hvne)
    have hnorm : visNormalizedAt sub (some m)
        (listMinD 0 vis) (listMaxD 0 vis) t = 0 := by
      unfold visNormalizedAt
      by_cases hcl : isCloseQ (listMaxD 0 vis) (listMinD 0 vis) = true
      · rw [if_pos hcl]
        simp [clipQ]
      · rw [if_neg hcl]
        have hlt : listMinD 0 vis < listMaxD 0 vis := by
          rcases lt_or_eq_of_le hminmax with h | h
          · exact h
          · exfalso
            apply hcl
            unfold isCloseQ
            apply decide_eq_true
            rw [h]
            simp only [sub_self, abs_zero]
            positivity
        have hms : maskedSubAt (some m) sub t = 0 := by
          simp [maskedSubAt, hm]
        rw [hms]
        have hq : (0 - listMinD 0 vis) / (listMaxD 0 vis - listMinD 0 vis) ≤ 0 :=
          div_nonpos_of_nonpos_of_nonneg (by linarith) (by linarith)
        unfold clipQ
        rw [max_eq_right hq, min_eq_left (by norm_num : (0:ℚ) ≤ 1)]
    rw [hnorm]
    exact alphaByte_at_zero pw hpw lower upper maxAlpha gamma hl0 hg0

theorem c6_witness :
    (visualiseHistogram (fun _ _ => 0) (fun f => f)
        ⟨none, some (fun _ => 1), [], ⟨0, 0, 0⟩, ⟨1, 1, 1⟩, 0, 0⟩ 0
        ⟨0, 1, 0, 0, 0, 0⟩ (some (fun u => u.1 == 0)) 0 1 1 0).alpha (1, 0, 0) = 0 :=
  c6_masked_voxel_alpha_zero (fun _ _ => 0) (fun _ _ => rfl) (fun f => f)
    ⟨none, some (fun _ => 1), [], ⟨0, 0, 0⟩, ⟨1, 1, 1⟩, 0, 0⟩ (fun _ => 1) 0
    ⟨0, 1, 0, 0, 0, 0⟩ (fun u => u.1 == 0) 0 1 1 0 (1, 0, 0) rfl
    (fun _ => by norm_num [processedOf]) le_rfl (by norm_num) (by norm_num)
    (by norm_num) le_rfl (by norm_num) rfl rfl
